import Mathlib

/-!
Verification development for the ChatVortex persistent conversation store.

The definitions below are a shallow embedding of the storage subsystem:
`src/lib/storage.ts` (the IndexedDB storage manager), the storage hook
`src/hooks/useAdvancedStorage.ts`, the localStorage quota handler of the
main page component, and the model-list cache of the chat API module.

Modelling conventions:
- JavaScript `Date` values are modelled by their millisecond value as `Nat`
  (`new Date(0)` is `0`, `new Date()` is an explicit `now : Nat` argument).
- An IndexedDB object store is modelled as a `List` of records together with
  an upsert (`put`) keyed by the record id, written as erase-then-append;
  reads through an index sort the matching records by the index key with the
  primary key as tie-break, exactly the order an IndexedDB cursor or `getAll`
  produces.  `getAll(range, count)` returns the first `count` records in that
  ascending key order.
- The JavaScript `Array.prototype.sort` calls in the source are stable and are
  applied to lists already ordered by (timestamp, id); a stable sort by
  timestamp of such a list coincides with sorting by the lexicographic key
  (timestamp, id), which is the comparator used here.
- Fallible or effectful inputs (the wall clock, fetch results, localStorage
  write outcomes) are explicit parameters.
-/

namespace ChatVortex

/-- Role of a chat message, from the Message interface of the chat types. -/
inductive Role where
  | user
  | assistant
  deriving DecidableEq

/-- In-memory chat message, from the Message interface (types/chat).
The timestamp is the millisecond value of the source Date. -/
structure Message where
  id : String
  content : String
  role : Role
  timestamp : Nat
  isTyping : Option Bool := none
  isStreaming : Option Bool := none
  deriving DecidableEq

/-- Session configuration is stored verbatim and never interpreted by the
storage engine; it is modelled as an uninterpreted serialized value. -/
abbrev SessionConfigVal := String

/-- In-memory chat session, from the ChatSession interface (types/chat).
The optional list-display metadata fields (messageCount, lastMessagePreview)
are derived summary data surfaced through CompressedSession and
SessionListItem below, not part of the persisted session identity. -/
structure ChatSession where
  id : String
  title : String
  createdAt : Nat
  updatedAt : Nat
  layoutMode : Option String := none
  config : Option SessionConfigVal := none
  messages : List Message
  deriving DecidableEq

/-- Message record as stored in the messages object store: the in-memory
message plus the owning sessionId (storage.ts saveSession line 115). -/
structure StoredMessage where
  sessionId : String
  msg : Message
  deriving DecidableEq

/-- Session metadata record of the sessions object store
(interface CompressedSession in storage.ts).  messageCount is an Option to
represent records where the field is missing or non-numeric. -/
structure CompressedSession where
  id : String
  title : String
  createdAt : Nat
  updatedAt : Nat
  layoutMode : Option String := none
  config : Option SessionConfigVal := none
  messageCount : Option Nat := none
  lastMessageId : Option String := none
  preview : Option String := none
  deriving DecidableEq

/-- State of the IndexedDB database ChatVortexDB: the sessions store and the
messages store (the metadata store is never used by the studied code). -/
structure DB where
  sessions : List CompressedSession
  messages : List StoredMessage
  deriving DecidableEq

/-- Ascending order of the compound index sessionTimestamp within one
session: by timestamp, ties broken by the primary key id (the order in
which an IndexedDB index enumerates records). -/
def MsgIdxLe (a b : StoredMessage) : Prop :=
  a.msg.timestamp < b.msg.timestamp ∨
    (a.msg.timestamp = b.msg.timestamp ∧ a.msg.id ≤ b.msg.id)

instance : DecidableRel MsgIdxLe := fun a b => by
  unfold MsgIdxLe; infer_instance

instance : IsTotal StoredMessage MsgIdxLe := by
  constructor
  intro a b
  rcases Nat.lt_trichotomy a.msg.timestamp b.msg.timestamp with h | h | h
  · exact Or.inl (Or.inl h)
  · rcases le_total a.msg.id b.msg.id with h2 | h2
    · exact Or.inl (Or.inr ⟨h, h2⟩)
    · exact Or.inr (Or.inr ⟨h.symm, h2⟩)
  · exact Or.inr (Or.inl h)

instance : IsTrans StoredMessage MsgIdxLe := by
  constructor
  rintro a b c (h1 | ⟨e1, i1⟩) (h2 | ⟨e2, i2⟩)
  · exact Or.inl (h1.trans h2)
  · exact Or.inl (e2 ▸ h1)
  · exact Or.inl (e1 ▸ h2)
  · exact Or.inr ⟨e1.trans e2, i1.trans i2⟩

/-- Ascending order by timestamp then id on plain messages; the result order
of the ascending sort in getSessionWithMessages (line 175). -/
def MsgAscLe (a b : Message) : Prop :=
  a.timestamp < b.timestamp ∨ (a.timestamp = b.timestamp ∧ a.id ≤ b.id)

instance : DecidableRel MsgAscLe := fun a b => by
  unfold MsgAscLe; infer_instance

instance : IsTotal Message MsgAscLe := by
  constructor
  intro a b
  rcases Nat.lt_trichotomy a.timestamp b.timestamp with h | h | h
  · exact Or.inl (Or.inl h)
  · rcases le_total a.id b.id with h2 | h2
    · exact Or.inl (Or.inr ⟨h, h2⟩)
    · exact Or.inr (Or.inr ⟨h.symm, h2⟩)
  · exact Or.inr (Or.inl h)

instance : IsTrans Message MsgAscLe := by
  constructor
  rintro a b c (h1 | ⟨e1, i1⟩) (h2 | ⟨e2, i2⟩)
  · exact Or.inl (h1.trans h2)
  · exact Or.inl (e2 ▸ h1)
  · exact Or.inl (e1 ▸ h2)
  · exact Or.inr ⟨e1.trans e2, i1.trans i2⟩

/-- Descending order by timestamp, ties keeping ascending id order; the
result order of the descending sort in getSessionMessages (line 209). -/
def MsgDescLe (a b : Message) : Prop :=
  b.timestamp < a.timestamp ∨ (a.timestamp = b.timestamp ∧ a.id ≤ b.id)

instance : DecidableRel MsgDescLe := fun a b => by
  unfold MsgDescLe; infer_instance

instance : IsTotal Message MsgDescLe := by
  constructor
  intro a b
  rcases Nat.lt_trichotomy a.timestamp b.timestamp with h | h | h
  · exact Or.inr (Or.inl h)
  · rcases le_total a.id b.id with h2 | h2
    · exact Or.inl (Or.inr ⟨h, h2⟩)
    · exact Or.inr (Or.inr ⟨h.symm, h2⟩)
  · exact Or.inl (Or.inl h)

instance : IsTrans Message MsgDescLe := by
  constructor
  rintro a b c (h1 | ⟨e1, i1⟩) (h2 | ⟨e2, i2⟩)
  · exact Or.inl (h2.trans h1)
  · exact Or.inl (e2 ▸ h1)
  · exact Or.inl (e1.symm ▸ h2)
  · exact Or.inr ⟨e1.trans e2, i1.trans i2⟩

/-- Descending order by updatedAt, ties keeping ascending id order; the
result order of getAllSessions (storage.ts lines 139 to 141). -/
def SessDescLe (a b : CompressedSession) : Prop :=
  b.updatedAt < a.updatedAt ∨ (a.updatedAt = b.updatedAt ∧ a.id ≤ b.id)

instance : DecidableRel SessDescLe := fun a b => by
  unfold SessDescLe; infer_instance

instance : IsTotal CompressedSession SessDescLe := by
  constructor
  intro a b
  rcases Nat.lt_trichotomy a.updatedAt b.updatedAt with h | h | h
  · exact Or.inr (Or.inl h)
  · rcases le_total a.id b.id with h2 | h2
    · exact Or.inl (Or.inr ⟨h, h2⟩)
    · exact Or.inr (Or.inr ⟨h.symm, h2⟩)
  · exact Or.inl (Or.inl h)

instance : IsTrans CompressedSession SessDescLe := by
  constructor
  rintro a b c (h1 | ⟨e1, i1⟩) (h2 | ⟨e2, i2⟩)
  · exact Or.inl (h2.trans h1)
  · exact Or.inl (e2 ▸ h1)
  · exact Or.inl (e1.symm ▸ h2)
  · exact Or.inr ⟨e1.trans e2, i1.trans i2⟩

/-- Model of the JavaScript string slice(0, n): the first n characters.
Defined directly on the character list of the string. -/
def sliceTo (s : String) (n : Nat) : String := ⟨s.data.take n⟩

/-- Upsert into the sessions store: store.put replaces the record with the
same primary key, modelled as erase-then-append. -/
def putSession (tbl : List CompressedSession) (r : CompressedSession) :
    List CompressedSession :=
  tbl.filter (fun x => decide (x.id ≠ r.id)) ++ [r]

/-- Upsert into the messages store, keyed by the message id. -/
def putMessage (tbl : List StoredMessage) (r : StoredMessage) :
    List StoredMessage :=
  tbl.filter (fun x => decide (x.msg.id ≠ r.msg.id)) ++ [r]

/-- Session metadata computed by saveSession (storage.ts lines 101 to 106):
messageCount, lastMessageId and preview derived from the message list. -/
def compress (s : ChatSession) : CompressedSession :=
  { id := s.id
    title := s.title
    createdAt := s.createdAt
    updatedAt := s.updatedAt
    layoutMode := s.layoutMode
    config := s.config
    messageCount := some s.messages.length
    lastMessageId := s.messages.getLast?.map (fun m => m.id)
    preview := s.messages.getLast?.map (fun m => sliceTo m.content 100) }

/-- StorageManager.saveSession (storage.ts lines 93 to 126): upsert the
compressed session metadata, then upsert every message tagged with the
session id. -/
def saveSession (db : DB) (s : ChatSession) : DB :=
  { sessions := putSession db.sessions (compress s)
    messages := s.messages.foldl
      (fun tbl m => putMessage tbl { sessionId := s.id, msg := m }) db.messages }

/-- Range scan of the compound index sessionTimestamp with the inclusive
bound IDBKeyRange.bound([sid, 0], [sid, hi]): the matching records in
ascending (timestamp, id) order. -/
def indexScan (db : DB) (sid : String) (hi : Nat) : List StoredMessage :=
  (db.messages.filter
    (fun m => decide (m.sessionId = sid ∧ m.msg.timestamp ≤ hi))).insertionSort
    MsgIdxLe

/-- Keyed get on the sessions store (sessionStore.get(sessionId)). -/
def findSession (db : DB) (sid : String) : Option CompressedSession :=
  db.sessions.find? (fun e => decide (e.id = sid))

/-- StorageManager.getAllSessions (storage.ts lines 129 to 142): read all
session metadata through the updatedAt index and sort descending by
updatedAt.  The JS sort is stable on input ordered by (updatedAt, id), so
ties keep ascending id order. -/
def getAllSessions (db : DB) : List CompressedSession :=
  db.sessions.insertionSort SessDescLe

/-- StorageManager.getSessionWithMessages (storage.ts lines 145 to 185):
look up the metadata record, scan the messages of the session with the
range bounded above by the current time, strip the sessionId tag and sort
ascending by timestamp. -/
def getSessionWithMessages (db : DB) (sid : String) (now : Nat) :
    Option ChatSession :=
  match findSession db sid with
  | none => none
  | some meta =>
      some
        { id := meta.id
          title := meta.title
          createdAt := meta.createdAt
          updatedAt := meta.updatedAt
          layoutMode := meta.layoutMode
          config := meta.config
          messages :=
            ((indexScan db sid now).map (fun w => w.msg)).insertionSort
              MsgAscLe }

/-- StorageManager.getSessionMessages (storage.ts lines 188 to 211): range
scan bounded above by before (or the current time when omitted), take the
first limit records in ascending index order (getAll(range, limit)), strip
the sessionId tag, sort descending by timestamp and slice to limit. -/
def getSessionMessages (db : DB) (sid : String) (limit : Nat)
    (before : Option Nat) (now : Nat) : List Message :=
  let upperBound := before.getD now
  let scanned := (indexScan db sid upperBound).take limit
  (((scanned.map (fun w => w.msg)).insertionSort MsgDescLe).take limit)

/-- StorageManager.deleteSession (storage.ts lines 214 to 240): delete the
metadata record, then delete every message found through the sessionId
index by its primary key. -/
def deleteSession (db : DB) (sid : String) : DB :=
  let doomed := (db.messages.filter (fun m => decide (m.sessionId = sid))).map
    (fun m => m.msg.id)
  { sessions := db.sessions.filter (fun e => decide (e.id ≠ sid))
    messages := db.messages.filter (fun m => decide (m.msg.id ∉ doomed)) }

/-- Two sorted lists that are permutations of each other are equal, assuming
antisymmetry of the order on the members of the first list. -/
theorem eq_of_perm_of_sorted_on {α : Type u} {r : α → α → Prop} {l₁ l₂ : List α}
    (hp : l₁.Perm l₂) (hs₁ : l₁.Sorted r) (hs₂ : l₂.Sorted r)
    (ha : ∀ a ∈ l₁, ∀ b ∈ l₁, r a b → r b a → a = b) : l₁ = l₂ := by
  induction l₁ generalizing l₂ with
  | nil => exact (hp.symm.eq_nil).symm
  | cons a t ih =>
    cases l₂ with
    | nil => exact absurd hp.eq_nil (by simp)
    | cons b t₂ =>
      by_cases hab : a = b
      · subst hab
        have hp' := hp.cons_inv
        have h₁ := List.sorted_cons.mp hs₁
        have h₂ := List.sorted_cons.mp hs₂
        have ht : t = t₂ := ih hp' h₁.2 h₂.2
          (fun x hx y hy => ha x (List.mem_cons_of_mem _ hx)
            y (List.mem_cons_of_mem _ hy))
        rw [ht]
      · exfalso
        have hbmem : b ∈ a :: t := hp.symm.subset (List.mem_cons_self _ _)
        have hamem : a ∈ b :: t₂ := hp.subset (List.mem_cons_self _ _)
        have hbt : b ∈ t := by
          rcases List.mem_cons.mp hbmem with h | h
          · exact absurd h.symm hab
          · exact h
        have hat₂ : a ∈ t₂ := by
          rcases List.mem_cons.mp hamem with h | h
          · exact absurd h hab
          · exact h
        have hrab : r a b := (List.sorted_cons.mp hs₁).1 b hbt
        have hrba : r b a := (List.sorted_cons.mp hs₂).1 a hat₂
        exact hab (ha a (List.mem_cons_self _ _) b hbmem hrab hrba)

/-- Insertion sort maps permutations to equal results when the order is
antisymmetric on the members involved. -/
theorem insertionSort_eq_of_perm {α : Type u} {r : α → α → Prop} [DecidableRel r]
    [IsTotal α r] [IsTrans α r] {l₁ l₂ : List α} (hp : l₁.Perm l₂)
    (ha : ∀ a ∈ l₁, ∀ b ∈ l₁, r a b → r b a → a = b) :
    l₁.insertionSort r = l₂.insertionSort r := by
  refine eq_of_perm_of_sorted_on
    ((List.perm_insertionSort r l₁).trans
      (hp.trans (List.perm_insertionSort r l₂).symm))
    (List.sorted_insertionSort r l₁) (List.sorted_insertionSort r l₂) ?_
  intro x hx y hy
  exact ha x ((List.perm_insertionSort r l₁).subset hx)
    y ((List.perm_insertionSort r l₁).subset hy)

/-- Antisymmetry on the members of a list follows from a key that the
relation forces to agree, if the key is duplicate-free on the list. -/
theorem antisymmOn_of_key {α : Type u} {κ : Type v} {r : α → α → Prop}
    (i : α → κ) (h : ∀ a b, r a b → r b a → i a = i b) {l : List α}
    (hnd : (l.map i).Nodup) :
    ∀ a ∈ l, ∀ b ∈ l, r a b → r b a → a = b :=
  fun a haa b hbb hab hba => List.inj_on_of_nodup_map hnd haa hbb (h a b hab hba)

theorem msgIdxLe_key_eq {a b : StoredMessage} (hab : MsgIdxLe a b)
    (hba : MsgIdxLe b a) : a.msg.id = b.msg.id := by
  rcases hab with h | ⟨h, h2⟩ <;> rcases hba with h' | ⟨h', h2'⟩
  · omega
  · omega
  · omega
  · exact le_antisymm h2 h2'

theorem msgAscLe_key_eq {a b : Message} (hab : MsgAscLe a b)
    (hba : MsgAscLe b a) : a.id = b.id := by
  rcases hab with h | ⟨h, h2⟩ <;> rcases hba with h' | ⟨h', h2'⟩
  · omega
  · omega
  · omega
  · exact le_antisymm h2 h2'

theorem msgDescLe_key_eq {a b : Message} (hab : MsgDescLe a b)
    (hba : MsgDescLe b a) : a.id = b.id := by
  rcases hab with h | ⟨h, h2⟩ <;> rcases hba with h' | ⟨h', h2'⟩
  · omega
  · omega
  · omega
  · exact le_antisymm h2 h2'

theorem sessDescLe_key_eq {a b : CompressedSession} (hab : SessDescLe a b)
    (hba : SessDescLe b a) : a.id = b.id := by
  rcases hab with h | ⟨h, h2⟩ <;> rcases hba with h' | ⟨h', h2'⟩
  · omega
  · omega
  · omega
  · exact le_antisymm h2 h2'

/-- find? is determined by the pointwise behavior of the predicate. -/
theorem find?_congr_pred {α : Type u} {p q : α → Bool} (h : ∀ a, p a = q a) :
    ∀ l : List α, l.find? p = l.find? q := by
  intro l
  induction l with
  | nil => rfl
  | cons a t ih =>
    simp only [List.find?, h a]
    cases q a <;> simp [ih]

/-- Looking up the key just upserted returns the new record. -/
theorem find?_putSession_self (tbl : List CompressedSession)
    (r : CompressedSession) :
    (putSession tbl r).find? (fun e => decide (e.id = r.id)) = some r := by
  unfold putSession
  rw [List.find?_append]
  have h1 : (tbl.filter (fun x => decide (x.id ≠ r.id))).find?
      (fun e => decide (e.id = r.id)) = none := by
    rw [List.find?_eq_none]
    intro x hx
    have := (List.mem_filter.mp hx).2
    simp only [decide_eq_true_eq] at this ⊢
    exact this
  rw [h1]
  simp [List.find?]

/-- Upserting one record does not change lookups of other keys. -/
theorem find?_putSession_other (tbl : List CompressedSession)
    (r : CompressedSession) (sid : String) (h : sid ≠ r.id) :
    (putSession tbl r).find? (fun e => decide (e.id = sid)) =
      tbl.find? (fun e => decide (e.id = sid)) := by
  unfold putSession
  rw [List.find?_append]
  have h2 : List.find? (fun e => decide (e.id = sid)) [r] = none := by
    simp only [List.find?]
    rw [decide_eq_false (Ne.symm h)]
  rw [h2, List.find?_filter]
  have h3 := find?_congr_pred
    (p := fun a : CompressedSession =>
      decide ((decide (a.id ≠ r.id)) = true ∧ (decide (a.id = sid)) = true))
    (q := fun e => decide (e.id = sid)) ?_ tbl
  · rw [h3]
    cases tbl.find? (fun e => decide (e.id = sid)) <;> rfl
  · intro a
    simp only [decide_eq_true_eq, ne_eq, decide_not]
    by_cases ha : a.id = sid
    · simp [ha, h]
    · simp [ha]

/-- The stored message records of one session. -/
def storedMsgsFor (db : DB) (sid : String) : List StoredMessage :=
  db.messages.filter (fun w => decide (w.sessionId = sid))

/-- Characterization of the messages store after the message-upsert loop of
saveSession: the records of the written session are, up to order, the old
records not overwritten plus the freshly written messages. -/
theorem foldPut_filter_perm (sid : String) (msgs : List Message) :
    ∀ (base : List StoredMessage), (msgs.map Message.id).Nodup →
      ((msgs.foldl (fun tbl m => putMessage tbl { sessionId := sid, msg := m })
          base).filter (fun w => decide (w.sessionId = sid))).Perm
        (base.filter (fun w => decide (w.sessionId = sid ∧
            w.msg.id ∉ msgs.map Message.id)) ++
          msgs.map (fun m => { sessionId := sid, msg := m })) := by
  induction msgs with
  | nil =>
    intro base _
    simp only [List.foldl_nil, List.map_nil, List.append_nil]
    have h : base.filter (fun w => decide (w.sessionId = sid ∧
        w.msg.id ∉ ([] : List String))) =
        base.filter (fun w => decide (w.sessionId = sid)) := by
      apply List.filter_congr
      intro x _
      simp
    rw [h]
  | cons m rest ih =>
    intro base hnd
    have hnd0 : (m.id :: rest.map Message.id).Nodup := by simpa using hnd
    have hnd' : (rest.map Message.id).Nodup := (List.nodup_cons.mp hnd0).2
    have hmid : m.id ∉ rest.map Message.id := (List.nodup_cons.mp hnd0).1
    rw [List.foldl_cons]
    refine (ih (putMessage base { sessionId := sid, msg := m }) hnd').trans ?_
    have hput : (putMessage base { sessionId := sid, msg := m }).filter
        (fun w => decide (w.sessionId = sid ∧ w.msg.id ∉ rest.map Message.id)) =
        base.filter (fun w => decide (w.sessionId = sid ∧
          w.msg.id ∉ (m :: rest).map Message.id)) ++
          [{ sessionId := sid, msg := m }] := by
      unfold putMessage
      rw [List.filter_append, List.filter_filter]
      have h1 : base.filter (fun a => decide (a.sessionId = sid ∧
          a.msg.id ∉ rest.map Message.id) && decide (a.msg.id ≠ m.id)) =
          base.filter (fun w => decide (w.sessionId = sid ∧
            w.msg.id ∉ (m :: rest).map Message.id)) := by
        apply List.filter_congr
        intro x _
        simp only [List.map_cons, List.mem_cons, not_or, decide_eq_true_eq,
          Bool.and_eq_true, ne_eq, decide_not, Bool.not_eq_true,
          decide_eq_false_iff_not]
        by_cases hx1 : x.sessionId = sid
        · by_cases hx2 : x.msg.id = m.id
          · simp [hx1, hx2]
          · by_cases hx3 : x.msg.id ∈ rest.map Message.id
            · simp [hx1, hx2, hx3]
            · simp [hx1, hx2, hx3]
        · simp [hx1]
      have h2 : List.filter (fun w => decide (w.sessionId = sid ∧
          w.msg.id ∉ rest.map Message.id))
          [({ sessionId := sid, msg := m } : StoredMessage)] =
          [{ sessionId := sid, msg := m }] := by
        simp [List.filter, hmid]
      rw [h1, h2]
    rw [hput, List.map_cons, List.append_assoc]
    rfl

/-- After saveSession, the records of the saved session are, up to order,
exactly the saved messages, provided the store held no other records for
that session than the ones being overwritten. -/
theorem saveSession_storedMsgs_perm (db : DB) (s : ChatSession)
    (hids : (s.messages.map Message.id).Nodup)
    (hstale : ∀ w ∈ db.messages, w.sessionId = s.id →
      w.msg.id ∈ s.messages.map Message.id) :
    (storedMsgsFor (saveSession db s) s.id).Perm
      (s.messages.map (fun m => { sessionId := s.id, msg := m })) := by
  unfold storedMsgsFor saveSession
  have h := foldPut_filter_perm s.id s.messages db.messages hids
  have hnil : db.messages.filter (fun w => decide (w.sessionId = s.id ∧
      w.msg.id ∉ s.messages.map Message.id)) = [] := by
    rw [List.filter_eq_nil_iff]
    intro w hw
    simp only [decide_eq_true_eq, not_and, not_not]
    intro h1
    exact hstale w hw h1
  rw [hnil] at h
  simpa using h

/-- The range scan of a freshly saved session with all timestamps within the
bound returns the saved messages sorted by (timestamp, id). -/
theorem indexScan_saveSession (db : DB) (s : ChatSession) (now : Nat)
    (hids : (s.messages.map Message.id).Nodup)
    (hts : ∀ m ∈ s.messages, m.timestamp ≤ now)
    (hstale : ∀ w ∈ db.messages, w.sessionId = s.id →
      w.msg.id ∈ s.messages.map Message.id) :
    indexScan (saveSession db s) s.id now =
      (s.messages.map (fun m =>
        ({ sessionId := s.id, msg := m } : StoredMessage))).insertionSort
        MsgIdxLe := by
  unfold indexScan
  have hsplit : (saveSession db s).messages.filter
      (fun w => decide (w.sessionId = s.id ∧ w.msg.timestamp ≤ now)) =
      (storedMsgsFor (saveSession db s) s.id).filter
        (fun w => decide (w.msg.timestamp ≤ now)) := by
    unfold storedMsgsFor
    rw [List.filter_filter]
    apply List.filter_congr
    intro x _
    by_cases h1 : x.sessionId = s.id
    · by_cases h2 : x.msg.timestamp ≤ now
      · simp [h1, h2]
      · simp [h1, h2]
    · simp [h1]
  rw [hsplit]
  have hperm1 := saveSession_storedMsgs_perm db s hids hstale
  have hperm2 := hperm1.filter (fun w => decide (w.msg.timestamp ≤ now))
  have hfull : (s.messages.map (fun m =>
      ({ sessionId := s.id, msg := m } : StoredMessage))).filter
      (fun w => decide (w.msg.timestamp ≤ now)) =
      s.messages.map (fun m => { sessionId := s.id, msg := m }) := by
    rw [List.filter_eq_self]
    intro w hw
    rcases List.mem_map.mp hw with ⟨m, hm, rfl⟩
    simpa using hts m hm
  rw [hfull] at hperm2
  have hnd2 : ((storedMsgsFor (saveSession db s) s.id).filter
      (fun w => decide (w.msg.timestamp ≤ now))).map
      (fun w => w.msg.id) |>.Nodup := by
    have hmapped := hperm2.map (fun w => w.msg.id)
    rw [hmapped.nodup_iff]
    simpa [Function.comp] using hids
  exact insertionSort_eq_of_perm hperm2
    (antisymmOn_of_key (fun w => w.msg.id)
      (fun a b hab hba => msgIdxLe_key_eq hab hba) hnd2)

/-- Stripping the sessionId tag undoes tagging a message list. -/
theorem map_msg_map_tag (sid : String) (l : List Message) :
    (l.map (fun m => ({ sessionId := sid, msg := m } : StoredMessage))).map
      (fun w => w.msg) = l := by
  induction l with
  | nil => rfl
  | cons a t ih => simp [ih]

/-- Looking up the freshly saved session returns its compressed metadata. -/
theorem findSession_saveSession_self (db : DB) (s : ChatSession) :
    findSession (saveSession db s) s.id = some (compress s) := by
  unfold findSession saveSession
  have h := find?_putSession_self db.sessions (compress s)
  simpa [compress] using h

/-- Claim C1 (amended): saveSession followed by getSessionWithMessages
returns the saved session with its messages sorted ascending by timestamp
(ties by id), independent of the order of the message list, provided the
message ids are pairwise distinct, every message timestamp is at most the
wall-clock time of the load, and the store holds no other message records
for this session id than the ones being overwritten.  The loaded message
list is a permutation of the saved one and is sorted by timestamp. -/
theorem C1_saveLoad_roundTrip (db : DB) (s : ChatSession) (now : Nat)
    (hids : (s.messages.map Message.id).Nodup)
    (hts : ∀ m ∈ s.messages, m.timestamp ≤ now)
    (hstale : ∀ w ∈ db.messages, w.sessionId = s.id →
      w.msg.id ∈ s.messages.map Message.id) :
    getSessionWithMessages (saveSession db s) s.id now =
      some { id := s.id, title := s.title, createdAt := s.createdAt,
             updatedAt := s.updatedAt, layoutMode := s.layoutMode,
             config := s.config,
             messages := s.messages.insertionSort MsgAscLe } ∧
    (s.messages.insertionSort MsgAscLe).Perm s.messages ∧
    (s.messages.insertionSort MsgAscLe).Sorted
      (fun a b => a.timestamp ≤ b.timestamp) := by
  have hfind := findSession_saveSession_self db s
  have hscan := indexScan_saveSession db s now hids hts hstale
  have hmapperm : ((indexScan (saveSession db s) s.id now).map
      (fun w => w.msg)).Perm s.messages := by
    rw [hscan]
    have h1 := (List.perm_insertionSort MsgIdxLe (s.messages.map
      (fun m => ({ sessionId := s.id, msg := m } : StoredMessage)))).map
      (fun w => w.msg)
    rw [map_msg_map_tag s.id s.messages] at h1
    exact h1
  refine ⟨?_, List.perm_insertionSort _ _, ?_⟩
  · unfold getSessionWithMessages
    rw [hfind]
    simp only [compress]
    simp only [Option.some.injEq, ChatSession.mk.injEq, true_and, and_true]
    apply insertionSort_eq_of_perm hmapperm
    apply antisymmOn_of_key (fun m : Message => m.id)
      (fun a b hab hba => msgAscLe_key_eq hab hba)
    rw [(hmapperm.map Message.id).nodup_iff]
    exact hids
  · exact (List.sorted_insertionSort MsgAscLe s.messages).imp
      (fun hab => by
        rcases hab with h | ⟨h, _⟩
        · exact le_of_lt h
        · exact le_of_eq h)

/-- Concrete session used to refute the unconditional round-trip claim: its
only message carries a timestamp later than the clock value at load time. -/
def futureSession : ChatSession :=
  { id := "s1", title := "t", createdAt := 0, updatedAt := 0,
    messages := [{ id := "m1", content := "hi", role := Role.user,
                   timestamp := 5 }] }

/-- Claim C1 counterexample: saving futureSession into an empty store and
loading it at wall-clock time 4 returns the session with an empty message
list, not a session equal to the saved one, because the range scan of
getSessionWithMessages is bounded above by the current time. -/
theorem C1_counterexample :
    getSessionWithMessages (saveSession ⟨[], []⟩ futureSession) "s1" 4 =
      some { id := "s1", title := "t", createdAt := 0, updatedAt := 0,
             layoutMode := none, config := none, messages := [] } ∧
    futureSession.messages ≠ [] := by
  constructor
  · rfl
  · intro h
    simp [futureSession] at h

/-- Concrete session whose two messages are listed newest-first. -/
def outOfOrderSession : ChatSession :=
  { id := "s2", title := "w", createdAt := 1, updatedAt := 2,
    messages := [{ id := "b", content := "second", role := Role.assistant,
                   timestamp := 9 },
                 { id := "a", content := "first", role := Role.user,
                   timestamp := 3 }] }

/-- Claim C1 witness: the amended round-trip theorem applied to a concrete
session saved into an empty store, with the hypotheses discharged by
computation. -/
theorem C1_witness :
    getSessionWithMessages (saveSession ⟨[], []⟩ outOfOrderSession)
        outOfOrderSession.id 10 =
      some { id := outOfOrderSession.id, title := outOfOrderSession.title,
             createdAt := outOfOrderSession.createdAt,
             updatedAt := outOfOrderSession.updatedAt,
             layoutMode := outOfOrderSession.layoutMode,
             config := outOfOrderSession.config,
             messages := outOfOrderSession.messages.insertionSort MsgAscLe } ∧
    (outOfOrderSession.messages.insertionSort MsgAscLe).Perm
      outOfOrderSession.messages ∧
    (outOfOrderSession.messages.insertionSort MsgAscLe).Sorted
      (fun a b => a.timestamp ≤ b.timestamp) :=
  C1_saveLoad_roundTrip ⟨[], []⟩ outOfOrderSession 10 (by decide)
    (by decide) (by decide)

/-- find? returns the unique element satisfying the predicate. -/
theorem find?_eq_of_unique {α : Type u} {p : α → Bool} {x : α} :
    ∀ {l : List α}, x ∈ l → p x = true → (∀ y ∈ l, p y = true → y = x) →
      l.find? p = some x := by
  intro l
  induction l with
  | nil => intro h; exact absurd h (List.not_mem_nil x)
  | cons a t ih =>
    intro hx hpx huni
    by_cases hpa : p a = true
    · have haeq : a = x := huni a (List.mem_cons_self _ _) hpa
      subst haeq
      simp [List.find?, hpa]
    · have hax : x ≠ a := fun h => hpa (h ▸ hpx)
      have hxt : x ∈ t := by
        rcases List.mem_cons.mp hx with h | h
        · exact absurd h hax
        · exact h
      have h1 : p a = false := Bool.eq_false_iff.mpr hpa
      simp only [List.find?, h1]
      exact ih hxt hpx (fun y hy hpy => huni y (List.mem_cons_of_mem _ hy) hpy)

/-- The bounded prefix of a string is empty exactly when the string is,
for a positive bound. -/
theorem sliceTo_eq_empty_iff (c : String) (n : Nat) (hn : n ≠ 0) :
    sliceTo c n = "" ↔ c = "" := by
  unfold sliceTo
  rw [String.ext_iff, String.ext_iff]
  simp [List.take_eq_nil_iff, hn]

/-- Claim C4 (amended): after saveSession, the summary record returned for
the saved session by getAllSessions is its compressed metadata, whose
messageCount equals the length of the saved message list and whose preview
is the 100-character prefix of the last message content; the preview is
missing or empty exactly when the message list is empty or the last message
content is the empty string (the original claim requires emptiness exactly
for an empty message list, which fails when the last content is empty). -/
theorem C4_summary_after_save (db : DB) (s : ChatSession) :
    (getAllSessions (saveSession db s)).find?
        (fun e => decide (e.id = s.id)) = some (compress s) ∧
    (compress s).messageCount = some s.messages.length ∧
    (compress s).preview =
      s.messages.getLast?.map (fun m => sliceTo m.content 100) ∧
    (((compress s).preview = none ∨ (compress s).preview = some "") ↔
      (s.messages = [] ∨
        ∃ m, s.messages.getLast? = some m ∧ m.content = "")) := by
  refine ⟨?_, rfl, rfl, ?_⟩
  · have hmem : compress s ∈ getAllSessions (saveSession db s) := by
      unfold getAllSessions saveSession putSession
      rw [(List.perm_insertionSort SessDescLe _).mem_iff]
      exact List.mem_append_right _ (List.mem_singleton.mpr rfl)
    refine find?_eq_of_unique hmem (by simp [compress]) ?_
    intro y hy hpy
    have hy2 : y ∈ putSession db.sessions (compress s) := by
      unfold getAllSessions at hy
      exact (List.perm_insertionSort SessDescLe _).subset hy
    unfold putSession at hy2
    rcases List.mem_append.mp hy2 with h | h
    · exfalso
      have := (List.mem_filter.mp h).2
      simp only [decide_eq_true_eq] at this hpy
      simp [compress] at this
      exact this hpy
    · exact List.mem_singleton.mp h
  · cases hl : s.messages.getLast? with
    | none =>
      have : s.messages = [] := List.getLast?_eq_none_iff.mp hl
      simp [compress, hl, this]
    | some m =>
      have hne : s.messages ≠ [] := by
        intro h
        rw [h] at hl
        exact Option.noConfusion hl
      simp only [compress, hl, Option.map_some]
      constructor
      · intro h
        rcases h with h | h
        · exact Option.noConfusion h
        · refine Or.inr ⟨m, rfl, ?_⟩
          have := Option.some.inj h
          exact (sliceTo_eq_empty_iff m.content 100 (by decide)).mp this
      · intro h
        rcases h with h | h
        · exact absurd h hne
        · rcases h with ⟨m', hm', hc⟩
          have hmm : m' = m := (Option.some.inj hm').symm
          subst hmm
          refine Or.inr ?_
          have hsl : sliceTo m'.content 100 = "" :=
            (sliceTo_eq_empty_iff m'.content 100 (by decide)).mpr hc
          simp [hsl]

/-- Concrete session whose single message has empty content, used to refute
the empty-preview iff empty-messages claim. -/
def emptyContentSession : ChatSession :=
  { id := "s3", title := "e", createdAt := 0, updatedAt := 0,
    messages := [{ id := "m1", content := "", role := Role.user,
                   timestamp := 1 }] }

/-- Claim C4 counterexample: after saving a session whose last message has
empty content, the summary preview is the empty string even though the
message list is not empty, refuting the claimed equivalence. -/
theorem C4_counterexample :
    (getAllSessions (saveSession ⟨[], []⟩ emptyContentSession)).find?
        (fun e => decide (e.id = "s3")) = some (compress emptyContentSession) ∧
    (compress emptyContentSession).preview = some "" ∧
    emptyContentSession.messages ≠ [] := by
  refine ⟨rfl, rfl, by decide⟩

/-- Short constructor for concrete user messages in examples. -/
def mkMsg (iden : String) (ts : Nat) : Message :=
  { id := iden, content := iden, role := Role.user, timestamp := ts }

/-- Concrete session with seven messages at timestamps 1 to 7. -/
def sevenMsgSession : ChatSession :=
  { id := "s7", title := "seven", createdAt := 0, updatedAt := 1,
    messages := [mkMsg "m1" 1, mkMsg "m2" 2, mkMsg "m3" 3, mkMsg "m4" 4,
                 mkMsg "m5" 5, mkMsg "m6" 6, mkMsg "m7" 7] }

/-- Database holding the seven-message session. -/
def db7 : DB := saveSession ⟨[], []⟩ sevenMsgSession

/-- Claim C2: evaluation of getSessionMessages at the failing input.  On a
session with seven messages, a page request with limit 3 returns the three
OLDEST messages (sorted descending), not the three most recent, because
getAll(range, limit) takes the first limit records in ascending index
order; the most recent message m7 is persisted but not returned. -/
theorem C2_page_returns_oldest :
    getSessionMessages db7 "s7" 3 none 100 =
      [mkMsg "m3" 3, mkMsg "m2" 2, mkMsg "m1" 1] ∧
    mkMsg "m7" 7 ∈ (storedMsgsFor db7 "s7").map (fun w => w.msg) := by
  decide

/-- Claim C3: evaluation of the pagination chain at the failing input.  The
first page on the seven-message session returns the three oldest messages;
chaining before to the oldest returned timestamp (1) returns m1 again (the
bound is inclusive and selection is oldest-first), so the chain is stuck at
a fixpoint: m1 is returned twice and m7 is never returned by any page. -/
theorem C3_pagination_chain_stuck :
    getSessionMessages db7 "s7" 3 none 100 =
      [mkMsg "m3" 3, mkMsg "m2" 2, mkMsg "m1" 1] ∧
    getSessionMessages db7 "s7" 3 (some 1) 100 = [mkMsg "m1" 1] ∧
    mkMsg "m7" 7 ∉ getSessionMessages db7 "s7" 3 none 100 ∧
    mkMsg "m7" 7 ∉ getSessionMessages db7 "s7" 3 (some 1) 100 := by
  decide

/-- Every record returned by the compound-index range scan satisfies its
upper bound. -/
theorem mem_indexScan_ts_le {db : DB} {sid : String} {hi : Nat}
    {w : StoredMessage} (h : w ∈ indexScan db sid hi) :
    w.msg.timestamp ≤ hi := by
  unfold indexScan at h
  have h2 := (List.perm_insertionSort MsgIdxLe _).subset h
  have h3 := (List.mem_filter.mp h2).2
  simp only [decide_eq_true_eq] at h3
  exact h3.2

/-- Claim C10: in getSessionWithMessages, and in getSessionMessages when no
before bound is supplied, the message range scan is bounded above by the
wall-clock time of the call, so no returned message has a timestamp later
than the moment of the query. -/
theorem C10_upper_bound_now (db : DB) (sid : String) (limit now : Nat) :
    (∀ sess, getSessionWithMessages db sid now = some sess →
      ∀ m ∈ sess.messages, m.timestamp ≤ now) ∧
    (∀ m ∈ getSessionMessages db sid limit none now, m.timestamp ≤ now) := by
  constructor
  · intro sess hsess m hm
    unfold getSessionWithMessages at hsess
    cases hfind : findSession db sid with
    | none => rw [hfind] at hsess; exact Option.noConfusion hsess
    | some meta =>
      rw [hfind] at hsess
      have hsess2 := Option.some.inj hsess
      rw [← hsess2] at hm
      simp only at hm
      have h2 := (List.perm_insertionSort MsgAscLe _).subset hm
      rcases List.mem_map.mp h2 with ⟨w, hw, rfl⟩
      exact mem_indexScan_ts_le hw
  · intro m hm
    unfold getSessionMessages at hm
    simp only [Option.getD] at hm
    have h2 := List.mem_of_mem_take hm
    have h3 := (List.perm_insertionSort MsgDescLe _).subset h2
    rcases List.mem_map.mp h3 with ⟨w, hw, rfl⟩
    exact mem_indexScan_ts_le (List.mem_of_mem_take hw)

/-- Claim C10 witness: the bound applied to the concrete seven-message
store at wall-clock time 6, at the message with timestamp 1 which the page
query returns. -/
theorem C10_witness : (mkMsg "m1" 1).timestamp ≤ 6 :=
  (C10_upper_bound_now db7 "s7" 3 6).2 (mkMsg "m1" 1) (by decide)

/-- Storage backend selected by the useAdvancedStorage hook; nostorage is
the initial none value of the source. -/
inductive StorageType where
  | indexeddb
  | localstorage
  | nostorage
  deriving DecidableEq

/-- In-memory state of the useAdvancedStorage hook (sessions, storageType,
error of the StorageState interface; isLoading and stats are UI-only). -/
structure HookState where
  sessions : List ChatSession
  storageType : StorageType
  error : Option String
  deriving DecidableEq

namespace Hook

/-- The saveToLocalStorage helper of useAdvancedStorage (lines 273 to 285):
serialize the whole session list into the single localStorage slot; on
failure set the quota error message and leave the slot unchanged.  The
outcome of the localStorage write is the explicit lsOk input. -/
def saveToLocalStorage (slot : Option (List ChatSession)) (st : HookState)
    (sessions : List ChatSession) (lsOk : Bool) :
    Option (List ChatSession) × HookState :=
  if lsOk then (some sessions, st)
  else (slot, { st with error := some "localStorage存储空间不足，请清理浏览器数据" })

/-- The saveSession action of useAdvancedStorage (lines 169 to 194).  The
primaryOk input is the outcome of the IndexedDB write, lsOk the outcome of
a localStorage write.  Returns the new hook state, IndexedDB state and
localStorage slot. -/
def saveSession (st : HookState) (db : DB) (slot : Option (List ChatSession))
    (s : ChatSession) (primaryOk lsOk : Bool) :
    HookState × DB × Option (List ChatSession) :=
  match st.storageType with
  | StorageType.indexeddb =>
      if primaryOk then
        ({ st with sessions :=
            if st.sessions.any (fun x => decide (x.id = s.id)) then
              st.sessions.map (fun x => if x.id = s.id then s else x)
            else s :: st.sessions },
         ChatVortex.saveSession db s, slot)
      else
        let r := saveToLocalStorage slot st
          (s :: st.sessions.filter (fun x => decide (x.id ≠ s.id))) lsOk
        (r.2, db, r.1)
  | _ =>
      let updated :=
        if st.sessions.any (fun x => decide (x.id = s.id)) then
          st.sessions.map (fun x => if x.id = s.id then s else x)
        else s :: st.sessions
      let r := saveToLocalStorage slot st updated lsOk
      ({ r.2 with sessions := updated }, db, r.1)

/-- The loadSession action of useAdvancedStorage (lines 197 to 209): read
from IndexedDB, falling back to the in-memory session list on failure or
when IndexedDB is not the active backend. -/
def loadSession (st : HookState) (db : DB) (sid : String) (primaryOk : Bool)
    (now : Nat) : Option ChatSession :=
  match st.storageType with
  | StorageType.indexeddb =>
      if primaryOk then getSessionWithMessages db sid now
      else st.sessions.find? (fun x => decide (x.id = sid))
  | _ => st.sessions.find? (fun x => decide (x.id = sid))

/-- The deleteSession action of useAdvancedStorage (lines 212 to 228): in
IndexedDB mode a failed primary delete is only logged; the session is
removed from the in-memory list, and the localStorage slot is written only
in localstorage mode. -/
def deleteSession (st : HookState) (db : DB) (slot : Option (List ChatSession))
    (sid : String) (primaryOk lsOk : Bool) :
    HookState × DB × Option (List ChatSession) :=
  match st.storageType with
  | StorageType.indexeddb =>
      let db2 := if primaryOk then ChatVortex.deleteSession db sid else db
      ({ st with sessions := st.sessions.filter (fun x => decide (x.id ≠ sid)) },
       db2, slot)
  | StorageType.localstorage =>
      let updated := st.sessions.filter (fun x => decide (x.id ≠ sid))
      let r := saveToLocalStorage slot st updated lsOk
      ({ r.2 with sessions := updated }, db, r.1)
  | StorageType.nostorage =>
      ({ st with sessions := st.sessions.filter (fun x => decide (x.id ≠ sid)) },
       db, slot)

end Hook

/-- Outcome of one localStorage.setItem call in the sessions-save effect of
the main page component. -/
inductive SaveOutcome where
  | ok
  | quotaFail
  | otherFail
  deriving DecidableEq

/-- Error class the specification expects the quota path to surface. -/
inductive StorageErr where
  | persistenceExhausted
  deriving DecidableEq

/-- The sessions-save effect of the main page component (the
QuotaExceededError handler): write the whole session list to the slot; on a
quota error retry once with the first six sessions of the list
(sessions.slice(0, 6)); a failing retry or a non-quota error is logged and
swallowed.  Returns the resulting slot and the error surfaced to the
caller, which is always none in the source. -/
def sessionsSaveEffect (sessions : List ChatSession)
    (slot : Option (List ChatSession)) (first retry : SaveOutcome) :
    Option (List ChatSession) × Option StorageErr :=
  match first with
  | SaveOutcome.ok => (some sessions, none)
  | SaveOutcome.quotaFail =>
      match retry with
      | SaveOutcome.ok => (some (sessions.take 6), none)
      | _ => (slot, none)
  | SaveOutcome.otherFail => (slot, none)

/-- Content of the chatvortex-sessions localStorage slot: absent, corrupt
(JSON.parse throws), or a parsed session list. -/
abbrev MigrationSlot := Option (Except Unit (List ChatSession))

/-- StorageManager.migrateFromLocalStorage (storage.ts lines 299 to 330):
read the slot, save every session into IndexedDB via saveSession; a parse
failure is caught and logged, leaving the database unchanged.  The slot
itself is not cleared here. -/
def migrateFromLocalStorage (db : DB) (slot : MigrationSlot) : DB :=
  match slot with
  | none => db
  | some (Except.error _) => db
  | some (Except.ok sessions) => sessions.foldl saveSession db

/-- The migration step of the initializeStorage path of useAdvancedStorage
(lines 47 to 61): when the slot holds data, run migrateFromLocalStorage and
then remove the chatvortex-sessions key. -/
def initMigrationStep (db : DB) (slot : MigrationSlot) : DB × MigrationSlot :=
  match slot with
  | none => (db, none)
  | some c => (migrateFromLocalStorage db (some c), none)

/-- Model metadata entry of the models endpoint (interface ModelInfo). -/
structure ModelInfo where
  id : String
  object : String
  created : Nat
  owned_by : String
  deriving DecidableEq

/-- The module-level models cache of the chat API module: data, fetch
timestamp and the cache key derived from the credentials. -/
structure ModelsCache where
  data : List ModelInfo
  timestamp : Nat
  cacheKey : String
  deriving DecidableEq

/-- Cache lifetime: 24 hours in milliseconds (CACHE_DURATION). -/
def cacheDuration : Nat := 24 * 60 * 60 * 1000

/-- Cache key derivation: the last ten characters of the api key, an
underscore, and the base url (apiKey.slice(-10) + baseUrl). -/
def modelsCacheKey (apiKey baseUrl : String) : String :=
  String.mk (apiKey.data.drop (apiKey.data.length - 10)) ++ "_" ++ baseUrl

/-- JavaScript substring containment (String.prototype.includes). -/
def strIncludes (s pat : String) : Bool := decide (pat.data <:+: s.data)

/-- The chat-model filter of fetchAvailableModels (lines 404 to 415). -/
def isChatModel (m : ModelInfo) : Bool :=
  let i := m.id.toLower
  (strIncludes i "gpt" || strIncludes i "claude" || strIncludes i "o1" ||
    strIncludes i "o3" || strIncludes i "o4" || strIncludes i "chatgpt") &&
  !strIncludes i "embedding" && !strIncludes i "tts" &&
  !strIncludes i "dall-e" && !strIncludes i "whisper" &&
  !strIncludes i "vision" && !strIncludes i "image"

/-- Provider priority used by the deduplication step (lines 424 to 432). -/
def getProviderPriority (ownedBy : String) : Nat :=
  if ownedBy = "openai" then 1
  else if ownedBy = "anthropic" then 2
  else if ownedBy = "google gemini" then 3
  else if ownedBy = "deepseek" then 4
  else if ownedBy = "aws" then 5
  else if ownedBy = "vertexai" then 6
  else 10

/-- One step of the deduplicating reduce (lines 418 to 444): keep the first
entry per id, replacing it in place when a later entry has a strictly
better provider priority.  The accumulator holds distinct ids, so the
in-place update is a map over the id. -/
def dedupStep (acc : List ModelInfo) (current : ModelInfo) : List ModelInfo :=
  match acc.find? (fun m => decide (m.id = current.id)) with
  | none => acc ++ [current]
  | some existing =>
      if getProviderPriority current.owned_by <
          getProviderPriority existing.owned_by then
        acc.map (fun m => if m.id = existing.id then current else m)
      else acc

/-- Series priority of the final model sort (lines 448 to 455). -/
def getModelPriority (i : String) : Nat :=
  if strIncludes i "gpt-5" then 1
  else if strIncludes i "gpt-4" then 2
  else if strIncludes i "o1" || strIncludes i "o3" || strIncludes i "o4" then 3
  else if strIncludes i "claude" then 4
  else if strIncludes i "gpt-3.5" then 5
  else 6

/-- Order of the final model sort: by series priority, ties by id (the
locale comparison of the source is modelled by code-unit order). -/
def ModelSortLe (a b : ModelInfo) : Prop :=
  getModelPriority a.id < getModelPriority b.id ∨
    (getModelPriority a.id = getModelPriority b.id ∧ a.id ≤ b.id)

instance : DecidableRel ModelSortLe := fun a b => by
  unfold ModelSortLe; infer_instance

instance : IsTotal ModelInfo ModelSortLe := by
  constructor
  intro a b
  rcases Nat.lt_trichotomy (getModelPriority a.id) (getModelPriority b.id)
    with h | h | h
  · exact Or.inl (Or.inl h)
  · rcases le_total a.id b.id with h2 | h2
    · exact Or.inl (Or.inr ⟨h, h2⟩)
    · exact Or.inr (Or.inr ⟨h.symm, h2⟩)
  · exact Or.inr (Or.inl h)

instance : IsTrans ModelInfo ModelSortLe := by
  constructor
  rintro a b c (h1 | ⟨e1, i1⟩) (h2 | ⟨e2, i2⟩)
  · exact Or.inl (h1.trans h2)
  · exact Or.inl (e2 ▸ h1)
  · exact Or.inl (e1 ▸ h2)
  · exact Or.inr ⟨e1.trans e2, i1.trans i2⟩

/-- The filter, dedup and sort pipeline applied to the fetched model list
(fetchAvailableModels lines 404 to 465). -/
def processModels (raw : List ModelInfo) : List ModelInfo :=
  ((raw.filter isChatModel).foldl dedupStep []).insertionSort ModelSortLe

/-- Failures of fetchAvailableModels: missing api key, or a failed or
non-ok network response. -/
inductive FetchErr where
  | missingApiKey
  | fetchFailed
  deriving DecidableEq

/-- fetchAvailableModels (part of the chat API module, lines 366 to 484).
The module-level cache and the localStorage mirror are the explicit inputs
memCache and storedCache (the mirror is consulted only when the module
cache is empty); the wall clock is now; fetchResult is the outcome of the
network request, already shaped as a model list.  The result carries the
returned models, the module cache after the call and whether the network
was used. -/
def fetchAvailableModels (memCache storedCache : Option ModelsCache)
    (apiKey baseUrl : String) (now : Nat)
    (fetchResult : Option (List ModelInfo)) :
    Except FetchErr (List ModelInfo × Option ModelsCache × Bool) :=
  if apiKey = "" then Except.error FetchErr.missingApiKey
  else
    let key := modelsCacheKey apiKey baseUrl
    let cache := match memCache with
      | some c => some c
      | none => storedCache
    match cache with
    | some c =>
        if c.cacheKey = key ∧ now - c.timestamp < cacheDuration then
          Except.ok (c.data, some c, false)
        else
          match fetchResult with
          | none => Except.error FetchErr.fetchFailed
          | some raw =>
              let chatModels := processModels raw
              Except.ok (chatModels,
                some { data := chatModels, timestamp := now, cacheKey := key },
                true)
    | none =>
        match fetchResult with
        | none => Except.error FetchErr.fetchFailed
        | some raw =>
            let chatModels := processModels raw
            Except.ok (chatModels,
              some { data := chatModels, timestamp := now, cacheKey := key },
              true)

/-- Short constructor for concrete message-free sessions in examples. -/
def mkSess (iden : String) (upd : Nat) : ChatSession :=
  { id := iden, title := iden, createdAt := 0, updatedAt := upd,
    messages := [] }

/-- Claim C6 (amended): when a fallback-tier write fails with a quota-class
error, the handler retries exactly once with the first six sessions of the
in-memory list (the six most recently updated only insofar as the list is
ordered most-recent-first); if the retry also fails, the error is logged
and swallowed, never surfaced as PersistenceExhausted; the in-memory list
is not touched by the handler. -/
theorem C6_quota_truncation (sessions : List ChatSession)
    (slot : Option (List ChatSession)) (retry : SaveOutcome) :
    sessionsSaveEffect sessions slot SaveOutcome.quotaFail retry =
      (if retry = SaveOutcome.ok then some (sessions.take 6) else slot,
       none) := by
  cases retry <;> simp [sessionsSaveEffect]

/-- Eight stored sessions whose most recently updated element sits at the
end of the in-memory list. -/
def quotaSessions : List ChatSession :=
  [mkSess "a" 10, mkSess "b" 9, mkSess "c" 8, mkSess "d" 7,
   mkSess "e" 6, mkSess "f" 5, mkSess "g" 4, mkSess "h" 20]

/-- Claim C6 counterexample: on a quota failure with a successful retry the
engine keeps the first six list entries, dropping the session with
updatedAt 20 even though it is the most recently updated of all eight; and
a failing retry surfaces no error at all. -/
theorem C6_counterexample :
    (sessionsSaveEffect quotaSessions none SaveOutcome.quotaFail
      SaveOutcome.ok).1 = some (quotaSessions.take 6) ∧
    mkSess "h" 20 ∈ quotaSessions ∧
    mkSess "h" 20 ∉ quotaSessions.take 6 ∧
    ((quotaSessions.take 6).all
      (fun t => decide (t.updatedAt < (mkSess "h" 20).updatedAt))) = true ∧
    (sessionsSaveEffect quotaSessions none SaveOutcome.quotaFail
      SaveOutcome.otherFail).2 = none := by
  decide

/-- Claim C7: the fallback-to-primary migration step is idempotent.  The
first run leaves the fallback slot empty, so a second run is a no-op: the
primary content after two runs equals the content after one, and the slot
is empty after either run. -/
theorem C7_migration_idempotent (db : DB) (slot : MigrationSlot) :
    (initMigrationStep (initMigrationStep db slot).1
      (initMigrationStep db slot).2).1 = (initMigrationStep db slot).1 ∧
    (initMigrationStep db slot).2 = none ∧
    (initMigrationStep (initMigrationStep db slot).1
      (initMigrationStep db slot).2).2 = none := by
  cases slot <;> simp [initMigrationStep]

/-- Claim C8 (amended): while the hook is in IndexedDB mode, a failed
primary save is retried against the localStorage fallback (writing the
updated session list to the slot), a failed primary load falls back to the
in-memory session list (not the fallback store), a failed primary delete is
only logged (neither the database nor the fallback slot changes, while the
in-memory list drops the session), and in every case the selector stays in
IndexedDB mode. -/
theorem C8_per_operation_fallback (st : HookState) (db : DB)
    (slot : Option (List ChatSession)) (s : ChatSession) (sid : String)
    (now : Nat) (h : st.storageType = StorageType.indexeddb) :
    Hook.saveSession st db slot s false true =
      (st, db, some (s :: st.sessions.filter (fun x => decide (x.id ≠ s.id)))) ∧
    Hook.deleteSession st db slot sid false true =
      ({ st with sessions := st.sessions.filter (fun x => decide (x.id ≠ sid)) },
       db, slot) ∧
    Hook.loadSession st db sid false now =
      st.sessions.find? (fun x => decide (x.id = sid)) ∧
    (Hook.saveSession st db slot s false true).1.storageType =
      StorageType.indexeddb ∧
    (Hook.deleteSession st db slot sid false true).1.storageType =
      StorageType.indexeddb := by
  obtain ⟨sess, sty, err⟩ := st
  simp only at h
  subst h
  refine ⟨rfl, rfl, rfl, rfl, rfl⟩

/-- Hook state holding one session, IndexedDB active. -/
def delState : HookState :=
  { sessions := [mkSess "y" 1], storageType := StorageType.indexeddb,
    error := none }

/-- Fallback slot holding the same session. -/
def delSlot : Option (List ChatSession) := some [mkSess "y" 1]

/-- Claim C8 counterexample: with IndexedDB active, a failed primary delete
of session y leaves the fallback slot unchanged and still containing y; the
deletion is not retried against the fallback store. -/
theorem C8_counterexample :
    (Hook.deleteSession delState ⟨[], []⟩ delSlot "y" false true).2.2 =
      delSlot ∧
    mkSess "y" 1 ∈
      ((Hook.deleteSession delState ⟨[], []⟩ delSlot "y" false true).2.2.getD
        []) ∧
    (Hook.deleteSession delState ⟨[], []⟩ delSlot "y" false true).1.storageType
      = StorageType.indexeddb := by
  decide

/-- Claim C8 witness: the amended routing theorem applied to a concrete
IndexedDB-mode state. -/
theorem C8_witness :
    Hook.saveSession delState ⟨[], []⟩ delSlot (mkSess "z" 2) false true =
      (delState, ⟨[], []⟩,
       some (mkSess "z" 2 ::
        delState.sessions.filter (fun x => decide (x.id ≠ (mkSess "z" 2).id)))) ∧
    Hook.deleteSession delState ⟨[], []⟩ delSlot "y" false true =
      ({ delState with sessions :=
          delState.sessions.filter (fun x => decide (x.id ≠ "y")) },
       ⟨[], []⟩, delSlot) ∧
    Hook.loadSession delState ⟨[], []⟩ "y" false 9 =
      delState.sessions.find? (fun x => decide (x.id = "y")) ∧
    (Hook.saveSession delState ⟨[], []⟩ delSlot (mkSess "z" 2)
      false true).1.storageType = StorageType.indexeddb ∧
    (Hook.deleteSession delState ⟨[], []⟩ delSlot "y"
      false true).1.storageType = StorageType.indexeddb :=
  C8_per_operation_fallback delState ⟨[], []⟩ delSlot (mkSess "z" 2) "y" 9 rfl

/-- The effective cache consulted by fetchAvailableModels: the module cache,
hydrated from the localStorage mirror when empty. -/
def effectiveCache (memCache storedCache : Option ModelsCache) :
    Option ModelsCache :=
  match memCache with
  | some c => some c
  | none => storedCache

/-- A cache entry matching the derived key and younger than the TTL. -/
def CacheFresh (eff : Option ModelsCache) (key : String) (now : Nat) : Prop :=
  ∃ c, eff = some c ∧ c.cacheKey = key ∧ now - c.timestamp < cacheDuration

/-- Claim C9: with a configured api key, fetchAvailableModels answers from
the cache without touching the network exactly when the effective cache
entry carries the key derived from the api key and base url and is younger
than 24 hours; a fresh matching entry is returned as is, and on a miss a
successful fetch replaces the cache with the processed list stamped with
the current time. -/
theorem C9_models_cache_ttl (memCache storedCache : Option ModelsCache)
    (apiKey baseUrl : String) (now : Nat)
    (fetchResult : Option (List ModelInfo)) (hk : apiKey ≠ "") :
    ((∃ d c, fetchAvailableModels memCache storedCache apiKey baseUrl now
        fetchResult = Except.ok (d, c, false)) ↔
      CacheFresh (effectiveCache memCache storedCache)
        (modelsCacheKey apiKey baseUrl) now) ∧
    (∀ c, effectiveCache memCache storedCache = some c →
      c.cacheKey = modelsCacheKey apiKey baseUrl →
      now - c.timestamp < cacheDuration →
      fetchAvailableModels memCache storedCache apiKey baseUrl now
        fetchResult = Except.ok (c.data, some c, false)) ∧
    (¬ CacheFresh (effectiveCache memCache storedCache)
        (modelsCacheKey apiKey baseUrl) now →
      ∀ raw, fetchResult = some raw →
      fetchAvailableModels memCache storedCache apiKey baseUrl now
        fetchResult = Except.ok (processModels raw,
          some { data := processModels raw, timestamp := now,
                 cacheKey := modelsCacheKey apiKey baseUrl }, true)) := by
  have hunfold : fetchAvailableModels memCache storedCache apiKey baseUrl now
      fetchResult =
      (match effectiveCache memCache storedCache with
      | some c =>
          if c.cacheKey = modelsCacheKey apiKey baseUrl ∧
              now - c.timestamp < cacheDuration then
            Except.ok (c.data, some c, false)
          else
            match fetchResult with
            | none => Except.error FetchErr.fetchFailed
            | some raw =>
                Except.ok (processModels raw,
                  some { data := processModels raw, timestamp := now,
                         cacheKey := modelsCacheKey apiKey baseUrl }, true)
      | none =>
          match fetchResult with
          | none => Except.error FetchErr.fetchFailed
          | some raw =>
              Except.ok (processModels raw,
                some { data := processModels raw, timestamp := now,
                       cacheKey := modelsCacheKey apiKey baseUrl }, true)) := by
    unfold fetchAvailableModels effectiveCache
    rw [if_neg hk]
  rw [hunfold]
  cases heff : effectiveCache memCache storedCache with
  | none =>
    refine ⟨?_, ?_, ?_⟩
    · constructor
      · rintro ⟨d, c, hdc⟩
        cases hfr : fetchResult with
        | none => rw [hfr] at hdc; exact Except.noConfusion hdc
        | some raw =>
          rw [hfr] at hdc
          have := Except.ok.inj hdc
          exact absurd (congrArg (fun t => t.2.2) this) (by simp)
      · rintro ⟨c, hc, _⟩
        exact Option.noConfusion hc
    · intro c hc
      exact absurd hc (by simp)
    · intro _ raw hraw
      rw [hraw]
  | some c =>
    dsimp only
    by_cases hcond : c.cacheKey = modelsCacheKey apiKey baseUrl ∧
        now - c.timestamp < cacheDuration
    · rw [if_pos hcond]
      refine ⟨?_, ?_, ?_⟩
      · exact ⟨fun _ => ⟨c, rfl, hcond.1, hcond.2⟩, fun _ =>
          ⟨c.data, some c, rfl⟩⟩
      · intro c' hc' _ _
        cases Option.some.inj hc'
        rfl
      · intro hmiss
        exact absurd ⟨c, rfl, hcond.1, hcond.2⟩ hmiss
    · rw [if_neg hcond]
      refine ⟨?_, ?_, ?_⟩
      · constructor
        · rintro ⟨d, c', hdc⟩
          cases hfr : fetchResult with
          | none => rw [hfr] at hdc; exact Except.noConfusion hdc
          | some raw =>
            rw [hfr] at hdc
            have := Except.ok.inj hdc
            exact absurd (congrArg (fun t => t.2.2) this) (by simp)
        · rintro ⟨c', hc', h1, h2⟩
          cases Option.some.inj hc'
          exact absurd ⟨h1, h2⟩ hcond
      · intro c' hc' h1 h2
        cases Option.some.inj hc'
        exact absurd ⟨h1, h2⟩ hcond
      · intro _ raw hraw
        rw [hraw]

/-- Concrete fresh cache entry for the witness. -/
def witnessCache : ModelsCache :=
  { data := [], timestamp := 3, cacheKey := modelsCacheKey "secretkey" "u" }

/-- Claim C9 witness: the cache theorem applied to a concrete fresh cache
entry, with the api-key hypothesis discharged by computation. -/
theorem C9_witness :
    ((∃ d c, fetchAvailableModels (some witnessCache) none "secretkey" "u" 5
        none = Except.ok (d, c, false)) ↔
      CacheFresh (effectiveCache (some witnessCache) none)
        (modelsCacheKey "secretkey" "u") 5) ∧
    (∀ c, effectiveCache (some witnessCache) none = some c →
      c.cacheKey = modelsCacheKey "secretkey" "u" →
      5 - c.timestamp < cacheDuration →
      fetchAvailableModels (some witnessCache) none "secretkey" "u" 5 none =
        Except.ok (c.data, some c, false)) ∧
    (¬ CacheFresh (effectiveCache (some witnessCache) none)
        (modelsCacheKey "secretkey" "u") 5 →
      ∀ raw, (none : Option (List ModelInfo)) = some raw →
      fetchAvailableModels (some witnessCache) none "secretkey" "u" 5 none =
        Except.ok (processModels raw,
          some { data := processModels raw, timestamp := 5,
                 cacheKey := modelsCacheKey "secretkey" "u" }, true)) :=
  C9_models_cache_ttl (some witnessCache) none "secretkey" "u" 5 none
    (by decide)

/-- Session list entry produced by loadSessionsFromIndexedDB (lines 120 to
131); the messages field of the source literal is always empty and omitted
here. -/
structure SessionListItem where
  id : String
  title : String
  createdAt : Nat
  updatedAt : Nat
  layoutMode : Option String
  config : Option SessionConfigVal
  messageCount : Nat
  lastMessagePreview : String
  deriving DecidableEq

/-- JavaScript falsiness of the preview field: missing or empty string. -/
def previewFalsy : Option String → Bool
  | none => true
  | some t => decide (t = "")

/-- Repair condition of loadSessionsFromIndexedDB (line 100): the
messageCount is not a number or the preview is falsy. -/
def badSummary (cs : CompressedSession) : Bool :=
  !cs.messageCount.isSome || previewFalsy cs.preview

/-- List entry built directly from the summary record when no repair runs
(messageCount and preview defaulted as by the source || operators). -/
def itemOfRaw (cs : CompressedSession) : SessionListItem :=
  { id := cs.id, title := cs.title, createdAt := cs.createdAt,
    updatedAt := cs.updatedAt, layoutMode := cs.layoutMode,
    config := cs.config, messageCount := cs.messageCount.getD 0,
    lastMessagePreview := cs.preview.getD "" }

/-- Processing of one summary by loadSessionsFromIndexedDB (lines 93 to
131): when the summary is bad, load the full session, recompute the count
and preview, persist the full session via saveSession, and return the
repaired entry; otherwise return the entry as stored. -/
def repairOne (db : DB) (now : Nat) (cs : CompressedSession) :
    DB × SessionListItem :=
  if badSummary cs then
    match getSessionWithMessages db cs.id now with
    | some full =>
        (saveSession db full,
         { id := cs.id, title := cs.title, createdAt := cs.createdAt,
           updatedAt := cs.updatedAt, layoutMode := cs.layoutMode,
           config := cs.config,
           messageCount := full.messages.length,
           lastMessagePreview :=
             (full.messages.getLast?.map
               (fun m => sliceTo m.content 100)).getD "" })
    | none => (db, itemOfRaw cs)
  else (db, itemOfRaw cs)

/-- One fold step of loadSessionsFromIndexedDB over the summary list. -/
def loadStep (now : Nat) (acc : DB × List SessionListItem)
    (cs : CompressedSession) : DB × List SessionListItem :=
  let r := repairOne acc.1 now cs
  (r.1, acc.2 ++ [r.2])

/-- loadSessionsFromIndexedDB of useAdvancedStorage (lines 88 to 141): read
all summaries, repair bad ones and return the list entries together with
the database state after the repairs (the concurrent Promise.all of the
source is modelled as a left-to-right fold). -/
def loadSessionsFromIndexedDB (db : DB) (now : Nat) :
    DB × List SessionListItem :=
  (getAllSessions db).foldl (loadStep now) (db, [])

/-- The full session reconstructed for the summary cs when the sessions
store maps cs.id to cs. -/
def expectedFull (db : DB) (now : Nat) (cs : CompressedSession) :
    ChatSession :=
  { id := cs.id, title := cs.title, createdAt := cs.createdAt,
    updatedAt := cs.updatedAt, layoutMode := cs.layoutMode,
    config := cs.config,
    messages :=
      ((indexScan db cs.id now).map (fun w => w.msg)).insertionSort
        MsgAscLe }

/-- The repaired list entry the hook returns for a bad summary cs. -/
def expectedItem (db : DB) (now : Nat) (cs : CompressedSession) :
    SessionListItem :=
  { id := cs.id, title := cs.title, createdAt := cs.createdAt,
    updatedAt := cs.updatedAt, layoutMode := cs.layoutMode,
    config := cs.config,
    messageCount := (expectedFull db now cs).messages.length,
    lastMessagePreview :=
      ((expectedFull db now cs).messages.getLast?.map
        (fun m => sliceTo m.content 100)).getD "" }

/-- With duplicate-free session ids, the keyed get of a stored record
returns exactly that record. -/
theorem findSession_eq_of_mem (db : DB)
    (hns : (db.sessions.map (fun e => e.id)).Nodup)
    (cs : CompressedSession) (hmem : cs ∈ db.sessions) :
    findSession db cs.id = some cs := by
  unfold findSession
  refine find?_eq_of_unique hmem (by simp) ?_
  intro y hy hpy
  simp only [decide_eq_true_eq] at hpy
  exact List.inj_on_of_nodup_map hns hy hmem hpy

/-- Shape of a loaded full session: its id is the requested one and every
message of it is a stored record of that session. -/
theorem getSessionWithMessages_shape {db : DB} {sid : String} {now : Nat}
    {full : ChatSession} (h : getSessionWithMessages db sid now = some full) :
    full.id = sid ∧ ∀ m ∈ full.messages,
      ({ sessionId := sid, msg := m } : StoredMessage) ∈ db.messages := by
  unfold getSessionWithMessages at h
  cases hf : findSession db sid with
  | none => rw [hf] at h; exact Option.noConfusion h
  | some meta =>
    rw [hf] at h
    have hmeta : meta.id = sid := by
      have := List.find?_some hf
      simpa using this
    have hfull := (Option.some.inj h).symm
    subst hfull
    refine ⟨hmeta, ?_⟩
    intro m hm
    simp only at hm
    have h2 := (List.perm_insertionSort MsgAscLe _).subset hm
    rcases List.mem_map.mp h2 with ⟨w, hw, rfl⟩
    have h3 := (List.perm_insertionSort MsgIdxLe _).subset hw
    have h4 := List.mem_filter.mp h3
    have h5 := h4.2
    simp only [decide_eq_true_eq] at h5
    have : ({ sessionId := sid, msg := w.msg } : StoredMessage) = w := by
      cases w
      simp only at h5 ⊢
      rw [h5.1]
    rw [this]
    exact h4.1

/-- Upserting a record already present in a duplicate-free table is a
permutation. -/
theorem putMessage_perm_of_mem {tbl : List StoredMessage} {r : StoredMessage}
    (hr : r ∈ tbl) (hnd : (tbl.map (fun w => w.msg.id)).Nodup) :
    (putMessage tbl r).Perm tbl := by
  obtain ⟨l₁, l₂, rfl⟩ := List.append_of_mem hr
  unfold putMessage
  rw [List.map_append, List.map_cons, List.nodup_append] at hnd
  obtain ⟨h₁, h₂, hdisj⟩ := hnd
  have hrl₂ : r.msg.id ∉ l₂.map (fun w => w.msg.id) :=
    (List.nodup_cons.mp h₂).1
  have hl₁ : ∀ x ∈ l₁, x.msg.id ≠ r.msg.id := by
    intro x hx heq
    exact hdisj (List.mem_map_of_mem _ hx) (by simp [heq])
  have hl₂ : ∀ x ∈ l₂, x.msg.id ≠ r.msg.id := by
    intro x hx heq
    exact hrl₂ (heq ▸ List.mem_map_of_mem _ hx)
  rw [List.filter_append]
  have e₁ : l₁.filter (fun x => decide (x.msg.id ≠ r.msg.id)) = l₁ :=
    List.filter_eq_self.mpr (fun a ha => by simpa using hl₁ a ha)
  have e₂ : (r :: l₂).filter (fun x => decide (x.msg.id ≠ r.msg.id)) = l₂ := by
    rw [List.filter_cons]
    have : (decide (r.msg.id ≠ r.msg.id)) = false := by simp
    rw [this]
    simp only [Bool.false_eq_true, if_false]
    exact List.filter_eq_self.mpr (fun a ha => by simpa using hl₂ a ha)
  rw [e₁, e₂]
  refine (List.perm_append_comm).trans ?_
  show (r :: (l₁ ++ l₂)).Perm (l₁ ++ r :: l₂)
  exact List.perm_middle.symm

/-- Upserting preserves duplicate-freeness of the message ids. -/
theorem putMessage_nodup {tbl : List StoredMessage} (r : StoredMessage)
    (hnd : (tbl.map (fun w => w.msg.id)).Nodup) :
    ((putMessage tbl r).map (fun w => w.msg.id)).Nodup := by
  unfold putMessage
  rw [List.map_append, List.nodup_append]
  refine ⟨?_, by simp, ?_⟩
  · exact List.Nodup.sublist ((List.filter_sublist _).map _) hnd
  · intro a ha hb
    rcases List.mem_map.mp ha with ⟨x, hx, rfl⟩
    have hxx := (List.mem_filter.mp hx).2
    simp only [ne_eq, decide_not, Bool.not_eq_eq_eq_not, Bool.not_true,
      decide_eq_false_iff_not] at hxx
    simp only [List.map_cons, List.map_nil, List.mem_singleton] at hb
    exact hxx hb

/-- Re-saving messages that are all already stored permutes the table. -/
theorem foldPut_perm (sid : String) (msgs : List Message) :
    ∀ (tbl : List StoredMessage),
      (∀ m ∈ msgs, ({ sessionId := sid, msg := m } : StoredMessage) ∈ tbl) →
      (tbl.map (fun w => w.msg.id)).Nodup →
      ((msgs.foldl (fun t m => putMessage t { sessionId := sid, msg := m })
        tbl).Perm tbl) := by
  induction msgs with
  | nil => intro tbl _ _; exact List.Perm.refl _
  | cons m rest ih =>
    intro tbl hmem hnd
    rw [List.foldl_cons]
    have hput := putMessage_perm_of_mem
      (hmem m (List.mem_cons_self _ _)) hnd
    have hnd' := putMessage_nodup { sessionId := sid, msg := m } hnd
    have hmem' : ∀ m' ∈ rest, ({ sessionId := sid, msg := m' } :
        StoredMessage) ∈ putMessage tbl { sessionId := sid, msg := m } :=
      fun m' hm' => hput.mem_iff.mpr (hmem m' (List.mem_cons_of_mem _ hm'))
    exact (ih _ hmem' hnd').trans hput

/-- Saving a session whose messages are all already stored under its id
permutes the messages table. -/
theorem saveSession_messages_perm (db : DB) (s : ChatSession)
    (hnd : (db.messages.map (fun w => w.msg.id)).Nodup)
    (hmem : ∀ m ∈ s.messages,
      ({ sessionId := s.id, msg := m } : StoredMessage) ∈ db.messages) :
    ((saveSession db s).messages).Perm db.messages :=
  foldPut_perm s.id s.messages db.messages hmem hnd

/-- The index scan only depends on the message table up to permutation,
given duplicate-free ids. -/
theorem indexScan_congr {db db' : DB} (sid : String) (now : Nat)
    (hperm : db'.messages.Perm db.messages)
    (hnd : (db.messages.map (fun w => w.msg.id)).Nodup) :
    indexScan db' sid now = indexScan db sid now := by
  unfold indexScan
  apply insertionSort_eq_of_perm (hperm.filter _)
  apply antisymmOn_of_key (fun w => w.msg.id)
    (fun a b hab hba => msgIdxLe_key_eq hab hba)
  have hnd' : (db'.messages.map (fun w => w.msg.id)).Nodup :=
    ((hperm.map _).nodup_iff).mpr hnd
  exact List.Nodup.sublist ((List.filter_sublist _).map _) hnd'

/-- Loading a full session only depends on the lookup result and the
message table up to permutation. -/
theorem getSessionWithMessages_congr {db db' : DB} (sid : String) (now : Nat)
    (hperm : db'.messages.Perm db.messages)
    (hnd : (db.messages.map (fun w => w.msg.id)).Nodup)
    (hfind : findSession db' sid = findSession db sid) :
    getSessionWithMessages db' sid now =
      getSessionWithMessages db sid now := by
  unfold getSessionWithMessages
  rw [hfind, indexScan_congr sid now hperm hnd]

/-- Saving one session does not change lookups of other session ids. -/
theorem findSession_saveSession_other (db : DB) (s : ChatSession)
    (sid : String) (h : sid ≠ s.id) :
    findSession (saveSession db s) sid = findSession db sid := by
  unfold findSession saveSession
  exact find?_putSession_other db.sessions (compress s) sid
    (by simpa [compress] using h)

/-- Behavior of the per-summary repair against a permuted table: a bad
summary whose record is stored is repaired to the expected entry and
persisted via saveSession. -/
theorem repairOne_spec {db db' : DB} (now : Nat) (cs : CompressedSession)
    (hperm : db'.messages.Perm db.messages)
    (hnd : (db.messages.map (fun w => w.msg.id)).Nodup)
    (hfind : findSession db' cs.id = findSession db cs.id)
    (hfound : findSession db cs.id = some cs)
    (hbad : badSummary cs = true) :
    repairOne db' now cs =
      (saveSession db' (expectedFull db now cs), expectedItem db now cs) := by
  unfold repairOne
  rw [hbad]
  have hload : getSessionWithMessages db' cs.id now =
      some (expectedFull db now cs) := by
    rw [getSessionWithMessages_congr cs.id now hperm hnd hfind]
    unfold getSessionWithMessages expectedFull
    rw [hfound]
  rw [hload]
  rfl

/-- The per-summary repair does not change lookups of other session ids. -/
theorem repairOne_findSession_other (db' : DB) (now : Nat)
    (cs : CompressedSession) (sid : String) (h : sid ≠ cs.id) :
    findSession (repairOne db' now cs).1 sid = findSession db' sid := by
  unfold repairOne
  by_cases hb : badSummary cs = true
  · rw [hb]
    cases hfull : getSessionWithMessages db' cs.id now with
    | none => rfl
    | some full =>
      have hid : full.id = cs.id := (getSessionWithMessages_shape hfull).1
      exact findSession_saveSession_other db' full sid (by rw [hid]; exact h)
  · rw [Bool.eq_false_iff.mpr hb]
    rfl

/-- The per-summary repair permutes the messages table. -/
theorem repairOne_messages_perm {db db' : DB} (now : Nat)
    (cs : CompressedSession) (hperm : db'.messages.Perm db.messages)
    (hnd : (db.messages.map (fun w => w.msg.id)).Nodup) :
    ((repairOne db' now cs).1.messages).Perm db.messages := by
  unfold repairOne
  by_cases hb : badSummary cs = true
  · rw [hb]
    cases hfull : getSessionWithMessages db' cs.id now with
    | none => exact hperm
    | some full =>
      have hshape := getSessionWithMessages_shape hfull
      have hnd' : (db'.messages.map (fun w => w.msg.id)).Nodup :=
        ((hperm.map _).nodup_iff).mpr hnd
      have hmem : ∀ m ∈ full.messages,
          ({ sessionId := full.id, msg := m } : StoredMessage) ∈
            db'.messages := by
        intro m hm
        rw [hshape.1]
        exact hshape.2 m hm
      exact (saveSession_messages_perm db' full hnd' hmem).trans hperm
  · rw [Bool.eq_false_iff.mpr hb]
    exact hperm

/-- Items already accumulated survive the rest of the load fold. -/
theorem loadFold_acc_mem (now : Nat) :
    ∀ (l : List CompressedSession) (dbi : DB) (acc : List SessionListItem)
      (x : SessionListItem), x ∈ acc →
      x ∈ (l.foldl (loadStep now) (dbi, acc)).2 := by
  intro l
  induction l with
  | nil => intro dbi acc x hx; exact hx
  | cons e rest ih =>
    intro dbi acc x hx
    rw [List.foldl_cons]
    exact ih (loadStep now (dbi, acc) e).1 (loadStep now (dbi, acc) e).2 x
      (List.mem_append_left _ hx)

/-- The load fold does not change lookups of session ids it never
processes. -/
theorem loadFold_findSession_frame (now : Nat) (sid : String) :
    ∀ (l : List CompressedSession) (dbi : DB) (acc : List SessionListItem),
      (∀ e ∈ l, e.id ≠ sid) →
      findSession (l.foldl (loadStep now) (dbi, acc)).1 sid =
        findSession dbi sid := by
  intro l
  induction l with
  | nil => intro dbi acc _; rfl
  | cons e rest ih =>
    intro dbi acc hne
    rw [List.foldl_cons]
    refine Eq.trans (ih (loadStep now (dbi, acc) e).1
      (loadStep now (dbi, acc) e).2
      (fun e' he' => hne e' (List.mem_cons_of_mem _ he'))) ?_
    exact repairOne_findSession_other dbi now e sid
      (Ne.symm (hne e (List.mem_cons_self _ _)))

/-- Main fold invariant: every bad summary in the processed list ends up
repaired in the returned item list, and its repaired record is persisted in
the final database state. -/
theorem loadFold_spec (db : DB) (now : Nat)
    (hnm : (db.messages.map (fun w => w.msg.id)).Nodup) :
    ∀ (l : List CompressedSession) (dbi : DB) (acc : List SessionListItem),
      (l.map (fun e => e.id)).Nodup →
      dbi.messages.Perm db.messages →
      (∀ e ∈ l, findSession dbi e.id = findSession db e.id) →
      (∀ e ∈ l, findSession db e.id = some e) →
      ∀ cs ∈ l, badSummary cs = true →
        expectedItem db now cs ∈ (l.foldl (loadStep now) (dbi, acc)).2 ∧
        findSession (l.foldl (loadStep now) (dbi, acc)).1 cs.id =
          some (compress (expectedFull db now cs)) := by
  intro l
  induction l with
  | nil =>
    intro dbi acc _ _ _ _ cs hcs
    exact absurd hcs (List.not_mem_nil cs)
  | cons e rest ih =>
    intro dbi acc hndl hperm hfind hfound cs hcs hbad
    have hnd0 : (e.id :: rest.map (fun x => x.id)).Nodup := by simpa using hndl
    have hndrest : (rest.map (fun x => x.id)).Nodup :=
      (List.nodup_cons.mp hnd0).2
    have hheadnot : e.id ∉ rest.map (fun x => x.id) :=
      (List.nodup_cons.mp hnd0).1
    have hperm₂ : ((repairOne dbi now e).1.messages).Perm db.messages :=
      repairOne_messages_perm now e hperm hnm
    have hfind₂ : ∀ e' ∈ rest, findSession (repairOne dbi now e).1 e'.id =
        findSession db e'.id := by
      intro e' he'
      have hne : e'.id ≠ e.id := by
        intro hcontra
        exact hheadnot (hcontra ▸ List.mem_map_of_mem _ he')
      rw [repairOne_findSession_other dbi now e e'.id hne]
      exact hfind e' (List.mem_cons_of_mem _ he')
    rw [List.foldl_cons]
    rcases List.mem_cons.mp hcs with hcs | hcs
    · subst hcs
      have hstep := repairOne_spec now cs hperm hnm
        (hfind cs (List.mem_cons_self _ _))
        (hfound cs (List.mem_cons_self _ _)) hbad
      constructor
      · have hx : expectedItem db now cs ∈ (loadStep now (dbi, acc) cs).2 := by
          show expectedItem db now cs ∈ acc ++ [(repairOne dbi now cs).2]
          rw [hstep]
          exact List.mem_append_right _ (List.mem_singleton.mpr rfl)
        exact loadFold_acc_mem now rest (loadStep now (dbi, acc) cs).1
          (loadStep now (dbi, acc) cs).2 _ hx
      · have hself : findSession (loadStep now (dbi, acc) cs).1 cs.id =
            some (compress (expectedFull db now cs)) := by
          show findSession (repairOne dbi now cs).1 cs.id = _
          rw [hstep]
          exact findSession_saveSession_self dbi (expectedFull db now cs)
        have hne : ∀ e' ∈ rest, e'.id ≠ cs.id := by
          intro e' he' hcontra
          exact hheadnot (hcontra ▸ List.mem_map_of_mem _ he')
        exact Eq.trans (loadFold_findSession_frame now cs.id rest
          (loadStep now (dbi, acc) cs).1 (loadStep now (dbi, acc) cs).2 hne)
          hself
    · exact ih (loadStep now (dbi, acc) e).1 (loadStep now (dbi, acc) e).2
        hndrest hperm₂ hfind₂
        (fun e' he' => hfound e' (List.mem_cons_of_mem _ he')) cs hcs hbad

/-- With every stored timestamp within the clock bound, the range scan of a
session returns all its stored records, sorted. -/
theorem indexScan_eq_stored (db : DB) (sid : String) (now : Nat)
    (hts : ∀ w ∈ db.messages, w.msg.timestamp ≤ now) :
    indexScan db sid now = (storedMsgsFor db sid).insertionSort MsgIdxLe := by
  unfold indexScan storedMsgsFor
  congr 1
  apply List.filter_congr
  intro x hx
  by_cases h1 : x.sessionId = sid
  · simp [h1, hts x hx]
  · simp [h1]

/-- The ascending message list reconstructed for a session equals the sort
of its stored messages, given in-bound timestamps and duplicate-free ids. -/
theorem expectedFull_messages_eq (db : DB) (sid : String) (now : Nat)
    (hnm : (db.messages.map (fun w => w.msg.id)).Nodup)
    (hts : ∀ w ∈ db.messages, w.msg.timestamp ≤ now) :
    ((indexScan db sid now).map (fun w => w.msg)).insertionSort MsgAscLe =
      (((storedMsgsFor db sid).map (fun w => w.msg)).insertionSort
        MsgAscLe) := by
  rw [indexScan_eq_stored db sid now hts]
  have hperm : (((storedMsgsFor db sid).insertionSort MsgIdxLe).map
      (fun w => w.msg)).Perm ((storedMsgsFor db sid).map (fun w => w.msg)) :=
    (List.perm_insertionSort MsgIdxLe _).map _
  apply insertionSort_eq_of_perm hperm
  apply antisymmOn_of_key (fun m : Message => m.id)
    (fun a b hab hba => msgAscLe_key_eq hab hba)
  have hsub : ((storedMsgsFor db sid).map (fun w => w.msg.id)).Nodup :=
    List.Nodup.sublist ((List.filter_sublist _).map _) hnm
  have hmm : (((storedMsgsFor db sid).insertionSort MsgIdxLe).map
      (fun w => w.msg)).map (fun m => m.id) |>.Perm
      ((storedMsgsFor db sid).map (fun w => w.msg.id)) := by
    have h := (List.perm_insertionSort MsgIdxLe
      (storedMsgsFor db sid)).map (fun w => w.msg.id)
    rw [List.map_map]
    exact h
  exact hmm.nodup_iff.mpr hsub

/-- Claim C5: on the summary read path of the hook, every summary whose
messageCount is missing, or whose preview is falsy while the session has
stored messages, is repaired: the returned entry carries the count and
100-character last-content prefix recomputed from the stored message
collection, and the repaired summary is persisted (via saveSession) in the
database state left behind by the read, before the list is returned.
Assumes duplicate-free record ids and stored timestamps within the clock
bound. -/
theorem C5_repair_on_read (db : DB) (now : Nat)
    (hnm : (db.messages.map (fun w => w.msg.id)).Nodup)
    (hns : (db.sessions.map (fun e => e.id)).Nodup)
    (hts : ∀ w ∈ db.messages, w.msg.timestamp ≤ now)
    (cs : CompressedSession) (hcs : cs ∈ getAllSessions db)
    (hbad : cs.messageCount = none ∨
      ((cs.preview = none ∨ cs.preview = some "") ∧
        storedMsgsFor db cs.id ≠ [])) :
    expectedItem db now cs ∈ (loadSessionsFromIndexedDB db now).2 ∧
    (expectedItem db now cs).messageCount = (storedMsgsFor db cs.id).length ∧
    (expectedItem db now cs).lastMessagePreview =
      ((((storedMsgsFor db cs.id).map (fun w => w.msg)).insertionSort
        MsgAscLe).getLast?.map (fun m => sliceTo m.content 100)).getD "" ∧
    findSession (loadSessionsFromIndexedDB db now).1 cs.id =
      some (compress (expectedFull db now cs)) ∧
    (compress (expectedFull db now cs)).messageCount =
      some ((storedMsgsFor db cs.id).length) := by
  have hbadb : badSummary cs = true := by
    unfold badSummary previewFalsy
    rcases hbad with h | ⟨h, _⟩
    · rw [h]
      rfl
    · rcases h with h | h <;> simp [h]
  have hcsmem : cs ∈ db.sessions :=
    (List.perm_insertionSort SessDescLe db.sessions).subset hcs
  have hndids : ((getAllSessions db).map (fun e => e.id)).Nodup := by
    unfold getAllSessions
    exact (((List.perm_insertionSort SessDescLe db.sessions).map
      (fun e => e.id)).nodup_iff).mpr hns
  have hfoundinv : ∀ e ∈ getAllSessions db, findSession db e.id = some e :=
    fun e he => findSession_eq_of_mem db hns e
      ((List.perm_insertionSort SessDescLe db.sessions).subset he)
  have hmain := loadFold_spec db now hnm (getAllSessions db) db [] hndids
    (List.Perm.refl _) (fun e _ => rfl) hfoundinv cs hcs hbadb
  have hmsgs := expectedFull_messages_eq db cs.id now hnm hts
  have hlen : (expectedFull db now cs).messages.length =
      (storedMsgsFor db cs.id).length := by
    show (((indexScan db cs.id now).map (fun w => w.msg)).insertionSort
      MsgAscLe).length = _
    rw [hmsgs]
    rw [(List.perm_insertionSort MsgAscLe _).length_eq]
    rw [List.length_map]
  refine ⟨hmain.1, ?_, ?_, hmain.2, ?_⟩
  · show (expectedFull db now cs).messages.length = _
    exact hlen
  · show (((expectedFull db now cs).messages).getLast?.map
      (fun m => sliceTo m.content 100)).getD "" = _
    show ((((indexScan db cs.id now).map (fun w => w.msg)).insertionSort
      MsgAscLe).getLast?.map (fun m => sliceTo m.content 100)).getD "" = _
    rw [hmsgs]
  · show some ((expectedFull db now cs).messages.length) = _
    rw [hlen]

/-- Concrete summary record with a missing messageCount. -/
def badCS : CompressedSession :=
  { id := "sb", title := "b", createdAt := 0, updatedAt := 3,
    layoutMode := none, config := none, messageCount := none,
    lastMessageId := none, preview := none }

/-- Concrete database where session sb has one stored message but a summary
lacking the derived fields. -/
def badDB : DB :=
  { sessions := [badCS],
    messages := [{ sessionId := "sb", msg := mkMsg "mb" 2 }] }

/-- Claim C5 witness: the repair theorem applied to the concrete database
with a summary lacking its messageCount, all hypotheses discharged by
computation. -/
theorem C5_witness :
    expectedItem badDB 5 badCS ∈ (loadSessionsFromIndexedDB badDB 5).2 ∧
    (expectedItem badDB 5 badCS).messageCount =
      (storedMsgsFor badDB badCS.id).length ∧
    (expectedItem badDB 5 badCS).lastMessagePreview =
      ((((storedMsgsFor badDB badCS.id).map (fun w => w.msg)).insertionSort
        MsgAscLe).getLast?.map (fun m => sliceTo m.content 100)).getD "" ∧
    findSession (loadSessionsFromIndexedDB badDB 5).1 badCS.id =
      some (compress (expectedFull badDB 5 badCS)) ∧
    (compress (expectedFull badDB 5 badCS)).messageCount =
      some ((storedMsgsFor badDB badCS.id).length) :=
  C5_repair_on_read badDB 5 (by decide) (by decide) (by decide) badCS
    (by decide) (Or.inl rfl)

end ChatVortex
